import Mathlib

/-!
Shallow embedding of the bench-map viewer's park search / selection /
list-synchronization logic (src/components/Parks.vue, src/components/Map.vue)
and of its data-loading contract, used to settle the specification claims.

JavaScript strings are modelled as lists of characters; JS array values are
list values, and the one place where in-place mutation matters
(`Array.prototype.sort` inside `topParks`) is modelled with an explicit heap
of arrays.  Numbers that the code treats as integers (`osm_id`, `count`,
`highlightIndex`) are modelled as `Int`.  Fallible asynchronous steps
(fetch / JSON decode / parquet decode) are modelled as `Except` parameters.
The map-rendering engine, viewport animation and geometry are external
collaborators per the specification's scope and are not modelled, except for
the feature-state ("clicked") table that the selection handlers mutate.
-/

namespace BenchMap

/-- Characters of a JavaScript string. -/
abbrev Str := List Char

/-- `String.prototype.toLowerCase`, character by character. -/
def toLowerStr (s : Str) : Str := s.map Char.toLower

/-- `String.prototype.trim`: strip whitespace from both ends. -/
def trimStr (s : Str) : Str :=
  ((s.dropWhile Char.isWhitespace).reverse.dropWhile Char.isWhitespace).reverse

/-- `startsWithAt hay needle`: `needle` occurs at the start of `hay`. -/
def startsWithAt : Str → Str → Bool
  | _, [] => true
  | [], _ :: _ => false
  | a :: hay, b :: ned => a = b && startsWithAt hay ned

/-- `String.prototype.includes`: `jsIncludes hay needle` is true when
`needle` occurs contiguously somewhere in `hay` (always true for `[]`). -/
def jsIncludes (hay needle : Str) : Bool :=
  match hay with
  | [] => needle.isEmpty
  | _ :: rest => startsWithAt hay needle || jsIncludes rest needle

/-- `needle` is a contiguous substring of `hay`. -/
def IsSubstringOf (needle hay : Str) : Prop :=
  ∃ pre post, hay = pre ++ needle ++ post

/-- A record of the park statistics table (src/components/types.ts plus the
`city`/`state` columns projected from the parquet file).  `name`, `city` and
`state` can be absent (`undefined`/`null` in JS), hence `Option`.  The
`envelope` geometry is consumed only by the map engine's viewport animation
(out of scope) and is not modelled. -/
structure ParkItem where
  osm_id : Int
  name : Option Str
  count : Int
  city : Option Str
  state : Option Str
deriving DecidableEq

/-- `String(x ?? "")` applied to an optional string field. -/
def jsFieldString (o : Option Str) : Str := o.getD []

/-- The search haystack of a record:
`` `${name} ${city} ${state}`.toLowerCase() ``. -/
def parkHaystack (p : ParkItem) : Str :=
  toLowerStr (jsFieldString p.name ++ [' '] ++ jsFieldString p.city
    ++ [' '] ++ jsFieldString p.state)

/-- The normalised query: `searchQuery.trim().toLowerCase()`. -/
def normQuery (searchQuery : Str) : Str := toLowerStr (trimStr searchQuery)

/-- The component's `searchLimit` data field. -/
def searchLimit : Nat := 2000

/-- The `filteredParks` computed property: `[]` when `parkData` is null,
otherwise the records whose haystack contains the trimmed lower-cased query
(all records when that query is empty, a falsy string), truncated to the
first `searchLimit` entries. -/
def filteredParks (parkData : Option (List ParkItem)) (searchQuery : Str) :
    List ParkItem :=
  match parkData with
  | none => []
  | some data =>
    let q := normQuery searchQuery
    let hits := if q.isEmpty then data
      else data.filter (fun park => jsIncludes (parkHaystack park) q)
    hits.take searchLimit

/-- The comparator `(a, b) => Number(b.count) - Number(a.count)` orders `a`
before `b` exactly when `b.count ≤ a.count`; ECMAScript `Array.prototype.sort`
is stable, so the sorted copy is the stable descending-by-count arrangement,
which is what insertion sort with this relation computes. -/
def countDescRel (a b : ParkItem) : Prop := b.count ≤ a.count

instance : DecidableRel countDescRel := fun a b => inferInstanceAs (Decidable (b.count ≤ a.count))

/-- `[...data].sort((a, b) => Number(b.count) - Number(a.count))` as a value. -/
def sortByCountDesc (data : List ParkItem) : List ParkItem :=
  data.insertionSort countDescRel

/-- The `topParks` computed property: `[]` when `parkData` is null, otherwise
the sorted copy truncated by `.slice(0, 10)`. -/
def topParks (parkData : Option (List ParkItem)) : List ParkItem :=
  match parkData with
  | none => []
  | some data => (sortByCountDesc data).take 10

/-- The `highlightedPark` computed property: null on an empty filtered list,
otherwise `filteredParks[Math.min(Math.max(highlightIndex, 0), len - 1)] ?? null`. -/
def highlightedPark (parkData : Option (List ParkItem)) (searchQuery : Str)
    (highlightIndex : Int) : Option ParkItem :=
  let fp := filteredParks parkData searchQuery
  if fp.isEmpty then none
  else
    let index := min (max highlightIndex 0) ((fp.length : Int) - 1)
    fp[index.toNat]?

/-- The reactive `data()` state of the Parks component (the constant
`searchLimit` is the definition above; emitted events are returned by the
methods that publish them). -/
structure ParksState where
  parkData : Option (List ParkItem)
  selected : Option ParkItem
  loading : Bool
  createdAt : Option Str
  searchQuery : Str
  highlightIndex : Int
  resultsOpen : Bool
deriving DecidableEq

/-- The initial `data()` of the component. -/
def initParksState : ParksState :=
  { parkData := none, selected := none, loading := true, createdAt := none,
    searchQuery := [], highlightIndex := 0, resultsOpen := false }

/-- `filteredParks` read off a component state. -/
def stateFiltered (s : ParksState) : List ParkItem :=
  filteredParks s.parkData s.searchQuery

/-- `topParks` read off a component state (it only consults `parkData`). -/
def stateTop (s : ParksState) : List ParkItem := topParks s.parkData

/-- The `selectPark` method (top-10 list click): sets `selected` and emits one
`"park"` event via `pickItem`; the second component is the list of events
published by the call. -/
def selectPark (s : ParksState) (park : ParkItem) : ParksState × List ParkItem :=
  ({ s with selected := some park }, [park])

/-- The `commitSelection` method: no-op on null, otherwise sets `selected`,
emits one `"park"` event and closes the results panel. -/
def commitSelection (s : ParksState) (park : Option ParkItem) :
    ParksState × List ParkItem :=
  match park with
  | none => (s, [])
  | some p => ({ s with selected := some p, resultsOpen := false }, [p])

/-- The `openResults` method (search input focus). -/
def openResults (s : ParksState) : ParksState := { s with resultsOpen := true }

/-- The body of the `closeResultsSoon` debounce timeout (fires 150 ms after
the search input loses focus). -/
def closeResultsTimeout (s : ParksState) : ParksState :=
  { s with resultsOpen := false }

/-- The `setHighlight` method (mouseenter on a rendered result row). -/
def setHighlight (s : ParksState) (index : Int) : ParksState :=
  { s with highlightIndex := index }

/-- The keys the `onSearchKeydown` handler distinguishes. -/
inductive Key where
  | arrowDown
  | arrowUp
  | enter
  | escape
  | other
deriving DecidableEq

/-- The `onSearchKeydown` method.  Note the early return when the filtered
list is empty: no key, Escape included, has any effect then. -/
def onSearchKeydown (s : ParksState) (k : Key) : ParksState × List ParkItem :=
  let fp := stateFiltered s
  if fp.isEmpty then (s, [])
  else
    match k with
    | .arrowDown =>
      let hi := min (s.highlightIndex + 1) ((fp.length : Int) - 1)
      ({ s with highlightIndex := hi }, [])
    | .arrowUp =>
      ({ s with highlightIndex := max (s.highlightIndex - 1) 0 }, [])
    | .enter =>
      commitSelection s (highlightedPark s.parkData s.searchQuery s.highlightIndex)
    | .escape => ({ s with resultsOpen := false }, [])
    | .other => (s, [])

/-- Assigning `searchQuery` (v-model on the input) together with the
`searchQuery` watcher, which resets `highlightIndex` to 0. -/
def setSearchQuery (s : ParksState) (q : Str) : ParksState :=
  { s with searchQuery := q, highlightIndex := 0 }

/-- Assigning `parkData` together with the `parkData` watcher, which resets
`highlightIndex` to 0. -/
def setParkData (s : ParksState) (d : Option (List ParkItem)) : ParksState :=
  { s with parkData := d, highlightIndex := 0 }

/-- The metadata descriptor (src/components/types.ts).  Only `created_at` is
consumed by the component; `files` and `bbox` are passed through to nothing
in the modelled logic and are omitted. -/
structure Metadata where
  created_at : Str
deriving DecidableEq

/-- The `async mounted()` hook.  `fmt` abstracts the browser's
`toLocaleDateString` formatting; `metaFetch` is the outcome of
`fetch(metadataUrl)` + `.json()`, `statsFetch` the outcome of
`asyncBufferFromUrl` + `parquetReadObjects`.  There is no try/catch: a
rejected await aborts the hook at that point, leaving the earlier
assignments in place (in particular `loading` stays `true`). -/
def mountedRun (s : ParksState) (fmt : Str → Str)
    (metaFetch : Except Unit Metadata)
    (statsFetch : Except Unit (List ParkItem)) : ParksState :=
  let s0 := { s with loading := true }
  match metaFetch with
  | .error _ => s0
  | .ok m =>
    let s1 := { s0 with createdAt := some (fmt m.created_at) }
    match statsFetch with
    | .error _ => s1
    | .ok data =>
      { s1 with parkData := some data, highlightIndex := 0, loading := false }

/-- The three mutually exclusive top-level branches of the Parks template:
`v-if="loading"` → "Loading metadata…"; otherwise `v-if="parkData"` → the
parks panel; otherwise `v-if="!parkData"` → "No metadata available.". -/
inductive ParksView where
  | loadingMsg
  | parksPanel
  | noData
deriving DecidableEq

/-- Which top-level branch the Parks template renders in a given state. -/
def renderParks (s : ParksState) : ParksView :=
  if s.loading then .loadingMsg
  else if s.parkData.isSome then .parksPanel
  else .noData

/-! ### Map component: feature-state handlers for the `"park"` event

The map's per-feature state table is modelled by the list of feature ids
whose `clicked` flag is set.  Viewport animation (`fitBounds` / `flyTo`) is
out of scope. -/

/-- `map.removeFeatureState({source})`: clears the feature state of every
feature of the source. -/
def removeAllFeatureState (_fs : List Int) : List Int := []

/-- `map.setFeatureState({source, id}, {clicked: true})`. -/
def setClicked (fs : List Int) (id : Int) : List Int :=
  if id ∈ fs then fs else fs ++ [id]

/-- The `"park"` handler of the geojson variant of Map.vue: clear all feature
state of the parks source, then mark the selected park's feature clicked
(then fly to its first coordinate — viewport, not modelled). -/
def geojsonParkHandler (fs : List Int) (e : ParkItem) : List Int :=
  setClicked (removeAllFeatureState fs) e.osm_id

/-- The `"park"` handler of the pmtiles variant of Map.vue: it only extends a
bounds object with the envelope coordinates and calls `fitBounds`; it never
touches feature state. -/
def pmtilesParkHandler (fs : List Int) (_e : ParkItem) : List Int := fs

/-! ### Heap model for `topParks`'s in-place sort

`topParks` evaluates `[...this.parkData].sort(...)`: the spread allocates a
fresh array, and `sort` mutates that fresh array in place.  To settle the
frame claim we model array identities explicitly: a heap is a list of array
contents, a reference is an index into it. -/

/-- A heap of JS arrays of park records. -/
abbrev Heap := List (List ParkItem)

/-- Read the contents of the array at reference `r`. -/
def heapGet (h : Heap) (r : Nat) : List ParkItem := h[r]?.getD []

/-- Overwrite the contents of the array at reference `r` (in-place mutation). -/
def heapSet (h : Heap) (r : Nat) (v : List ParkItem) : Heap := h.set r v

/-- Allocate a fresh array holding `v`; returns the new heap and the fresh
reference. -/
def heapAlloc (h : Heap) (v : List ParkItem) : Heap × Nat := (h ++ [v], h.length)

/-- Evaluation of the `topParks` getter against the heap: `parkDataRef` is the
reference held by `this.parkData` (or null).  `[...this.parkData]` allocates a
copy, `.sort` mutates the copy in place, `.slice(0, 10)` reads it. -/
def evalTopParks (h : Heap) (parkDataRef : Option Nat) :
    List ParkItem × Heap :=
  match parkDataRef with
  | none => ([], h)
  | some r =>
    let contents := heapGet h r
    let alloc := heapAlloc h contents
    let h1 := alloc.1
    let copyRef := alloc.2
    let h2 := heapSet h1 copyRef (sortByCountDesc (heapGet h1 copyRef))
    ((heapGet h2 copyRef).take 10, h2)

/-! ### User-action step relation over the Parks component -/

/-- One user-visible transition of the Parks component.  `hover` carries the
bound `i < |filteredParks|` because the virtualized list renders only rows of
`filteredParks`, so a `mouseenter` index is always in range; `clickResult`
and `clickTop` likewise commit a rendered record. -/
inductive UserStep : ParksState → ParksState → Prop where
  | typeQuery (s : ParksState) (q : Str) : UserStep s (setSearchQuery s q)
  | load (s : ParksState) (d : Option (List ParkItem)) :
      UserStep s (setParkData s d)
  | keydown (s : ParksState) (k : Key) : UserStep s (onSearchKeydown s k).1
  | focus (s : ParksState) : UserStep s (openResults s)
  | blurTimeout (s : ParksState) : UserStep s (closeResultsTimeout s)
  | hover (s : ParksState) (i : Nat) (h : i < (stateFiltered s).length) :
      UserStep s (setHighlight s i)
  | clickResult (s : ParksState) (p : ParkItem) (h : p ∈ stateFiltered s) :
      UserStep s (commitSelection s (some p)).1
  | clickTop (s : ParksState) (p : ParkItem) (h : p ∈ stateTop s) :
      UserStep s (selectPark s p).1
  | mount (s : ParksState) (fmt : Str → Str) (m : Except Unit Metadata)
      (d : Except Unit (List ParkItem)) : UserStep s (mountedRun s fmt m d)

/-- States reachable from the initial component state by user actions. -/
inductive Reachable : ParksState → Prop where
  | init : Reachable initParksState
  | step {s s' : ParksState} : Reachable s → UserStep s s' → Reachable s'

/-- The highlight invariant: whenever the filtered list is non-empty, the
highlight index is inside `[0, |filteredParks| − 1]`. -/
def HighlightInv (s : ParksState) : Prop :=
  stateFiltered s ≠ [] →
    0 ≤ s.highlightIndex ∧ s.highlightIndex < (stateFiltered s).length

/-- Written from the spec's words for claim C3, to be compared with
`filteredParks`: a record matches when the case-insensitive concatenation of
name, city and state has the query as a substring (no separators, no
trimming of the query). -/
def specConcatMatch (p : ParkItem) (q : Str) : Prop :=
  IsSubstringOf (toLowerStr q)
    (toLowerStr (jsFieldString p.name ++ jsFieldString p.city ++ jsFieldString p.state))

/-- Sample record: name `"a"`, city `"b"`, 3 benches. -/
def parkA : ParkItem :=
  { osm_id := 1, name := some ['a'], count := 3, city := some ['b'], state := none }

/-- Sample record: name `"p"`, 5 benches, no city/state. -/
def parkP : ParkItem :=
  { osm_id := 7, name := some ['p'], count := 5, city := none, state := none }

/-! ### Lemmas about the JS string primitives -/

theorem startsWithAt_iff (hay ned : Str) :
    startsWithAt hay ned = true ↔ ∃ post, hay = ned ++ post := by
  induction ned generalizing hay with
  | nil => simp [startsWithAt]
  | cons b ned ih =>
    cases hay with
    | nil => simp [startsWithAt]
    | cons a hay =>
      simp only [startsWithAt, Bool.and_eq_true, decide_eq_true_eq, ih,
        List.cons_append, List.cons.injEq]
      constructor
      · rintro ⟨rfl, post, rfl⟩
        exact ⟨post, rfl, rfl⟩
      · rintro ⟨post, rfl, rfl⟩
        exact ⟨rfl, post, rfl⟩

theorem jsIncludes_iff (hay ned : Str) :
    jsIncludes hay ned = true ↔ IsSubstringOf ned hay := by
  induction hay with
  | nil =>
    cases ned with
    | nil =>
      simp only [jsIncludes, List.isEmpty_nil, IsSubstringOf, true_iff]
      exact ⟨[], [], rfl⟩
    | cons b ned =>
      simp only [jsIncludes, List.isEmpty_cons, IsSubstringOf,
        Bool.false_eq_true, false_iff]
      rintro ⟨pre, post, h⟩
      exact absurd h.symm (by simp)
  | cons a rest ih =>
    simp only [jsIncludes, Bool.or_eq_true, startsWithAt_iff, ih]
    constructor
    · rintro (⟨post, h⟩ | ⟨pre, post, h⟩)
      · exact ⟨[], post, by simpa using h⟩
      · exact ⟨a :: pre, post, by simp [h]⟩
    · rintro ⟨pre, post, h⟩
      cases pre with
      | nil => exact Or.inl ⟨post, by simpa using h⟩
      | cons a' pre =>
        rw [List.cons_append, List.cons_append, List.cons.injEq] at h
        exact Or.inr ⟨pre, post, h.2⟩

instance (ned hay : Str) : Decidable (IsSubstringOf ned hay) :=
  decidable_of_iff (jsIncludes hay ned = true) (jsIncludes_iff hay ned)

instance (p : ParkItem) (q : Str) : Decidable (specConcatMatch p q) :=
  inferInstanceAs (Decidable (IsSubstringOf _ _))

theorem jsIncludes_eq_decide (hay ned : Str) :
    jsIncludes hay ned = decide (IsSubstringOf ned hay) := by
  by_cases h : IsSubstringOf ned hay
  · rw [(jsIncludes_iff hay ned).mpr h, decide_eq_true h]
  · rw [decide_eq_false h]
    rcases hb : jsIncludes hay ned with _ | _
    · rfl
    · exact absurd ((jsIncludes_iff hay ned).mp hb) h

theorem trimStr_eq_nil (q : Str) (h : ∀ c ∈ q, c.isWhitespace) :
    trimStr q = [] := by
  unfold trimStr
  have h1 : q.dropWhile Char.isWhitespace = [] :=
    List.dropWhile_eq_nil_iff.mpr fun c hc => h c hc
  rw [h1]
  rfl

/-! ### Lemmas about filtering and sorting -/

theorem filteredParks_eq (d : List ParkItem) (q : Str) :
    filteredParks (some d) q =
      (d.filter (fun p =>
        decide (IsSubstringOf (normQuery q) (parkHaystack p)))).take searchLimit := by
  simp only [filteredParks]
  by_cases hq : (normQuery q).isEmpty
  · rw [if_pos hq]
    have hnil : normQuery q = [] := List.isEmpty_iff.mp hq
    have hall : ∀ p ∈ d,
        decide (IsSubstringOf (normQuery q) (parkHaystack p)) = true := by
      intro p _
      exact decide_eq_true ⟨[], parkHaystack p, by simp [hnil]⟩
    rw [List.filter_eq_self.mpr hall]
  · rw [if_neg hq]
    congr 1
    exact List.filter_congr fun p _ => jsIncludes_eq_decide (parkHaystack p) (normQuery q)

instance : IsTotal ParkItem countDescRel := ⟨fun a b => le_total b.count a.count⟩

instance : IsTrans ParkItem countDescRel := ⟨fun _ _ _ h1 h2 => le_trans h2 h1⟩

theorem sortByCountDesc_sorted (d : List ParkItem) :
    (sortByCountDesc d).Pairwise countDescRel :=
  List.sorted_insertionSort countDescRel d

theorem sortByCountDesc_perm (d : List ParkItem) :
    (sortByCountDesc d).Perm d :=
  List.perm_insertionSort countDescRel d

theorem filter_count_orderedInsert (c : Int) (a : ParkItem) (l : List ParkItem) :
    (List.orderedInsert countDescRel a l).filter (fun p => decide (p.count = c)) =
      (a :: l).filter (fun p => decide (p.count = c)) := by
  induction l with
  | nil => simp [List.orderedInsert]
  | cons b l ih =>
    by_cases hr : countDescRel a b
    · simp only [List.orderedInsert, if_pos hr]
    · have hab : a.count < b.count := by
        unfold countDescRel at hr
        omega
      simp only [List.orderedInsert, if_neg hr]
      by_cases ha : a.count = c <;> by_cases hb : b.count = c
      · exfalso
        omega
      · simp [List.filter_cons, ha, hb, ih]
      · simp [List.filter_cons, ha, hb, ih]
      · simp [List.filter_cons, ha, hb, ih]

theorem filter_count_sortByCountDesc (c : Int) (l : List ParkItem) :
    (sortByCountDesc l).filter (fun p => decide (p.count = c)) =
      l.filter (fun p => decide (p.count = c)) := by
  induction l with
  | nil => rfl
  | cons a l ih =>
    have hstep : sortByCountDesc (a :: l) =
        List.orderedInsert countDescRel a (sortByCountDesc l) := rfl
    rw [hstep, filter_count_orderedInsert, List.filter_cons, List.filter_cons, ih]

/-! ### The highlight invariant is inductive over user steps -/

theorem stateFiltered_set_highlightIndex (s : ParksState) (hi : Int) :
    stateFiltered { s with highlightIndex := hi } = stateFiltered s := rfl

theorem highlightInv_userStep {s s' : ParksState} (h : HighlightInv s)
    (st : UserStep s s') : HighlightInv s' := by
  cases st with
  | typeQuery q =>
    intro hne
    exact ⟨le_refl 0, by
      show (0 : Int) < _
      exact_mod_cast List.length_pos.mpr hne⟩
  | load d =>
    intro hne
    exact ⟨le_refl 0, by
      show (0 : Int) < _
      exact_mod_cast List.length_pos.mpr hne⟩
  | keydown k =>
    by_cases hfp : (stateFiltered s).isEmpty
    · have hs' : (onSearchKeydown s k).1 = s := by
        simp [onSearchKeydown, hfp]
      rw [hs']
      exact h
    · have hne : stateFiltered s ≠ [] := by
        intro hnil
        rw [hnil] at hfp
        exact hfp rfl
      obtain ⟨h0, hlen⟩ := h hne
      have hne' : filteredParks s.parkData s.searchQuery ≠ [] := hne
      have hL : (0 : Int) < (stateFiltered s).length := by
        exact_mod_cast List.length_pos.mpr hne
      cases k with
      | arrowDown =>
        have e1 : (onSearchKeydown s .arrowDown).1.highlightIndex =
            min (s.highlightIndex + 1) (((stateFiltered s).length : Int) - 1) := by
          simp [onSearchKeydown, hfp]
        have e2 : stateFiltered (onSearchKeydown s .arrowDown).1 = stateFiltered s := by
          simp [onSearchKeydown, hfp, stateFiltered, hne']
        intro _
        rw [e1, e2]
        constructor
        · omega
        · omega
      | arrowUp =>
        have e1 : (onSearchKeydown s .arrowUp).1.highlightIndex =
            max (s.highlightIndex - 1) 0 := by
          simp [onSearchKeydown, hfp]
        have e2 : stateFiltered (onSearchKeydown s .arrowUp).1 = stateFiltered s := by
          simp [onSearchKeydown, hfp, stateFiltered, hne']
        intro _
        rw [e1, e2]
        constructor
        · omega
        · omega
      | enter =>
        have hs' : (onSearchKeydown s .enter).1 =
            (commitSelection s
              (highlightedPark s.parkData s.searchQuery s.highlightIndex)).1 := by
          simp [onSearchKeydown, hfp]
        rw [hs']
        cases highlightedPark s.parkData s.searchQuery s.highlightIndex with
        | none => exact h
        | some p => exact h
      | escape =>
        have hs' : (onSearchKeydown s .escape).1 = { s with resultsOpen := false } := by
          simp [onSearchKeydown, hfp]
        rw [hs']
        exact h
      | other =>
        have hs' : (onSearchKeydown s .other).1 = s := by
          simp [onSearchKeydown, hfp]
        rw [hs']
        exact h
  | focus => exact h
  | blurTimeout => exact h
  | hover i hbound =>
    intro _
    constructor
    · exact Int.ofNat_nonneg i
    · show (i : Int) < _
      exact_mod_cast hbound
  | clickResult p hp => exact h
  | clickTop p hp => exact h
  | mount fmt m d =>
    cases m with
    | error e => exact h
    | ok mm =>
      cases d with
      | error e => exact h
      | ok data =>
        intro hne
        exact ⟨le_refl 0, by
          show (0 : Int) < _
          exact_mod_cast List.length_pos.mpr hne⟩

theorem highlightInv_of_reachable {s : ParksState} (h : Reachable s) :
    HighlightInv s := by
  induction h with
  | init =>
    intro hne
    exact absurd rfl hne
  | step hr hst ih => exact highlightInv_userStep ih hst

/-! ### Claims -/

/-- C1: the claim says a metadata-fetch, statistics-fetch or decode failure
ends with `parkData = null`, `loading = false` and the "No metadata
available." branch rendered.  The code's `async mounted()` has no try/catch,
so a rejected await aborts the hook with `loading` still `true`: `parkData`
is indeed null, but the UI stays on the "Loading metadata…" branch forever
and the template's explicit no-data branch is unreachable on failure.  This
theorem evaluates the hook at both failing inputs. -/
theorem claim_C1_failure_keeps_loading :
    (mountedRun initParksState id (.error ()) (.ok [])).loading = true ∧
    (mountedRun initParksState id (.error ()) (.ok [])).parkData = none ∧
    renderParks (mountedRun initParksState id (.error ()) (.ok [])) =
      ParksView.loadingMsg ∧
    (mountedRun initParksState id (.ok ⟨[]⟩) (.error ())).loading = true ∧
    (mountedRun initParksState id (.ok ⟨[]⟩) (.error ())).parkData = none ∧
    renderParks (mountedRun initParksState id (.ok ⟨[]⟩) (.error ())) =
      ParksView.loadingMsg := by
  decide

/-- C2 counterexample: clicking a top-10 list entry (the `selectPark`
method) while the results panel is open publishes its one event but leaves
`resultsOpen = true` — `selectPark` never touches `resultsOpen`, so the
claim's "leaves resultsOpen = false afterwards" fails for that action. -/
theorem claim_C2_counterexample :
    parkP ∈ stateTop (openResults (setParkData initParksState (some [parkP]))) ∧
    (selectPark (openResults (setParkData initParksState (some [parkP]))) parkP).2
      = [parkP] ∧
    (selectPark (openResults (setParkData initParksState (some [parkP])))
      parkP).1.resultsOpen = true := by
  decide

/-- C2 (amended): each selection action publishes exactly one SelectionEvent
(the record itself, hence its `osm_id`) and sets `selected` to the record;
`commitSelection` (pointer commit in the panel) and Enter on the highlighted
result additionally set `resultsOpen := false`, while a top-10 click
(`selectPark`) leaves `resultsOpen` unchanged. -/
theorem claim_C2_selection_events (s : ParksState) (p : ParkItem) :
    (selectPark s p).2 = [p] ∧
    (selectPark s p).1.selected = some p ∧
    (selectPark s p).1.resultsOpen = s.resultsOpen ∧
    (commitSelection s (some p)).2 = [p] ∧
    (commitSelection s (some p)).1.selected = some p ∧
    (commitSelection s (some p)).1.resultsOpen = false ∧
    (∀ r, highlightedPark s.parkData s.searchQuery s.highlightIndex = some r →
      (onSearchKeydown s .enter).2 = [r] ∧
      (onSearchKeydown s .enter).1.selected = some r ∧
      (onSearchKeydown s .enter).1.resultsOpen = false) := by
  refine ⟨rfl, rfl, rfl, rfl, rfl, rfl, ?_⟩
  intro r hr
  have hfp : (stateFiltered s).isEmpty = false := by
    rcases hh : (stateFiltered s).isEmpty with _ | _
    · rfl
    · exfalso
      have hnil : filteredParks s.parkData s.searchQuery = [] :=
        List.isEmpty_iff.mp hh
      simp [highlightedPark, hnil] at hr
  have hstep : onSearchKeydown s .enter =
      commitSelection s (highlightedPark s.parkData s.searchQuery s.highlightIndex) := by
    simp [onSearchKeydown, hfp]
  rw [hstep, hr]
  exact ⟨rfl, rfl, rfl⟩

/-- C2 witness: the amended theorem evaluated on a loaded one-record dataset. -/
theorem claim_C2_selection_events_witness :
    (onSearchKeydown (setParkData initParksState (some [parkP])) .enter).2
      = [parkP] ∧
    (onSearchKeydown (setParkData initParksState (some [parkP]))
      .enter).1.resultsOpen = false ∧
    (commitSelection (setParkData initParksState (some [parkP]))
      (some parkP)).2 = [parkP] := by
  have h := claim_C2_selection_events (setParkData initParksState (some [parkP])) parkP
  have he := h.2.2.2.2.2.2 parkP (by decide)
  exact ⟨he.1, he.2.2, h.2.2.2.1⟩

/-- C3 counterexample: with the dataset `[{name: "a", city: "b"}]` and query
`"ab"`, the claim's predicate holds (the separator-free concatenation "ab"
contains "ab"), yet `filteredParks` returns `[]` — the code matches against
the space-separated haystack `"a b "`. -/
theorem claim_C3_counterexample :
    specConcatMatch parkA ['a', 'b'] ∧
    filteredParks (some [parkA]) ['a', 'b'] = [] := by
  decide

/-- C3 (amended): `filteredParks` is the order-preserving subsequence of the
dataset consisting of the records whose lower-cased space-separated haystack
`"name city state"` contains the trimmed lower-cased query as a substring
(every record when the trimmed query is empty), truncated to the first 2000
hits; it is a sublist of the dataset and never longer than 2000. -/
theorem claim_C3_filtering (d : List ParkItem) (q : Str) :
    filteredParks (some d) q =
      (d.filter (fun p =>
        decide (IsSubstringOf (normQuery q) (parkHaystack p)))).take searchLimit ∧
    List.Sublist (filteredParks (some d) q) d ∧
    (filteredParks (some d) q).length ≤ 2000 := by
  refine ⟨filteredParks_eq d q, ?_, ?_⟩
  · rw [filteredParks_eq]
    exact (List.take_sublist _ _).trans (List.filter_sublist d)
  · rw [filteredParks_eq]
    exact List.length_take_le _ _

/-- C4: `topParks` has length `min(10, |dataset|)`, is pairwise descending
by `count`, is the truncation of a stable sort (the sorted copy is a
permutation of the dataset whose equal-count subsequences keep the dataset's
original order), and its value only reads `parkData` — changing the query or
`resultsOpen` leaves it untouched. -/
theorem claim_C4_topParks (d : List ParkItem) (s : ParksState) (q : Str) (ro : Bool) :
    (topParks (some d)).length = min 10 d.length ∧
    (topParks (some d)).Pairwise countDescRel ∧
    (∀ c : Int, (sortByCountDesc d).filter (fun p => decide (p.count = c)) =
      d.filter (fun p => decide (p.count = c))) ∧
    (sortByCountDesc d).Perm d ∧
    topParks (some d) = (sortByCountDesc d).take 10 ∧
    stateTop { s with searchQuery := q, resultsOpen := ro } = stateTop s := by
  refine ⟨?_, ?_, ?_, sortByCountDesc_perm d, rfl, rfl⟩
  · simp [topParks, sortByCountDesc]
  · exact (sortByCountDesc_sorted d).sublist (List.take_sublist 10 _)
  · intro c
    exact filter_count_sortByCountDesc c d

/-- C5: in every state reachable by user actions, `highlightIndex` lies in
`[0, |filteredParks| − 1]` whenever `filteredParks` is non-empty, and setting
the query or the dataset (which runs the corresponding watcher) resets
`highlightIndex` to 0. -/
theorem claim_C5_highlight_invariant (s : ParksState) (h : Reachable s) :
    (stateFiltered s ≠ [] →
      0 ≤ s.highlightIndex ∧ s.highlightIndex < (stateFiltered s).length) ∧
    (∀ q, (setSearchQuery s q).highlightIndex = 0) ∧
    (∀ d, (setParkData s d).highlightIndex = 0) :=
  ⟨highlightInv_of_reachable h, fun _ => rfl, fun _ => rfl⟩

/-- C5 witness: the invariant evaluated in the reachable state obtained by
loading a one-record dataset. -/
theorem claim_C5_highlight_invariant_witness :
    stateFiltered (setParkData initParksState (some [parkP])) ≠ [] ∧
    0 ≤ (setParkData initParksState (some [parkP])).highlightIndex ∧
    (setParkData initParksState (some [parkP])).highlightIndex <
      (stateFiltered (setParkData initParksState (some [parkP]))).length := by
  have hr : Reachable (setParkData initParksState (some [parkP])) :=
    Reachable.step Reachable.init (UserStep.load initParksState (some [parkP]))
  have h := (claim_C5_highlight_invariant _ hr).1 (by decide)
  exact ⟨by decide, h⟩

theorem foldl_geojsonParkHandler_last (es : List ParkItem) :
    ∀ (fs : List Int) (e : ParkItem),
      List.foldl geojsonParkHandler fs (e :: es) = [(es.getLast?.getD e).osm_id] := by
  induction es with
  | nil =>
    intro fs e
    simp [geojsonParkHandler, removeAllFeatureState, setClicked]
  | cons e2 es ih =>
    intro fs e
    have hstep : List.foldl geojsonParkHandler fs (e :: e2 :: es) =
        List.foldl geojsonParkHandler (geojsonParkHandler fs e) (e2 :: es) := rfl
    rw [hstep, ih (geojsonParkHandler fs e) e2]
    cases es with
    | nil => rfl
    | cons e3 es =>
      cases hgl : (e3 :: es).getLast? with
      | none => simp at hgl
      | some x => simp [hgl]

/-- C6 counterexample: the pmtiles-variant `"park"` handler only fits the
viewport; on receipt of a SelectionEvent it neither clears an existing
highlight (a previously clicked feature id 5 survives) nor marks the selected
park's feature as highlighted. -/
theorem claim_C6_counterexample :
    pmtilesParkHandler [] parkP = [] ∧
    parkP.osm_id ∉ pmtilesParkHandler [] parkP ∧
    pmtilesParkHandler [5] parkP = [5] := by
  decide

/-- C6 (amended): in the geojson variant the handler clears all feature
state, then marks exactly the selected feature, so after any sequence of
selections exactly the last-selected feature is highlighted — never two; in
the pmtiles variant the handler leaves feature state unchanged, so
selections highlight nothing there. -/
theorem claim_C6_single_highlight (fs : List Int) (e : ParkItem) (es : List ParkItem) :
    geojsonParkHandler fs e = [e.osm_id] ∧
    List.foldl geojsonParkHandler fs (e :: es) = [(es.getLast?.getD e).osm_id] ∧
    (List.foldl geojsonParkHandler fs (e :: es)).length ≤ 1 ∧
    pmtilesParkHandler fs e = fs := by
  refine ⟨?_, foldl_geojsonParkHandler_last es fs e, ?_, rfl⟩
  · simp [geojsonParkHandler, removeAllFeatureState, setClicked]
  · rw [foldl_geojsonParkHandler_last es fs e]
    exact le_refl 1

/-- C7 counterexample: with an empty loaded dataset and the results panel
open, pressing Escape does nothing — `onSearchKeydown` returns before the
Escape branch whenever the filtered list is empty, so `resultsOpen` stays
true. -/
theorem claim_C7_counterexample :
    (openResults (setParkData initParksState (some []))).resultsOpen = true ∧
    stateFiltered (openResults (setParkData initParksState (some []))) = [] ∧
    (onSearchKeydown (openResults (setParkData initParksState (some [])))
      .escape).1.resultsOpen = true := by
  decide

/-- C7 (amended): pressing Escape sets `resultsOpen := false` whenever the
filtered list is non-empty; when it is empty the keydown handler returns
early and the state is unchanged. -/
theorem claim_C7_escape (s : ParksState) :
    (stateFiltered s ≠ [] → (onSearchKeydown s .escape).1.resultsOpen = false) ∧
    (stateFiltered s = [] → (onSearchKeydown s .escape).1 = s) := by
  constructor
  · intro hne
    have hfp : (stateFiltered s).isEmpty = false := by
      rcases hh : (stateFiltered s).isEmpty with _ | _
      · rfl
      · exact absurd (List.isEmpty_iff.mp hh) hne
    simp [onSearchKeydown, hfp]
  · intro hnil
    have hfp : (stateFiltered s).isEmpty = true := by
      rw [hnil]
      rfl
    simp [onSearchKeydown, hfp]

/-- C7 witness: the amended theorem evaluated with a loaded one-record
dataset and the panel open. -/
theorem claim_C7_escape_witness :
    stateFiltered (openResults (setParkData initParksState (some [parkP]))) ≠ [] ∧
    (onSearchKeydown (openResults (setParkData initParksState (some [parkP])))
      .escape).1.resultsOpen = false := by
  refine ⟨by decide, ?_⟩
  exact (claim_C7_escape (openResults (setParkData initParksState (some [parkP])))).1
    (by decide)

/-- C8: a whitespace-only (or empty) query trims to the empty string, which
is falsy, so `filteredParks` is the first `min(|dataset|, 2000)` records in
original order; and with `parkData` null both projections are empty. -/
theorem claim_C8_trivial_query (d : List ParkItem) (q : Str)
    (hw : ∀ c ∈ q, c.isWhitespace) :
    filteredParks (some d) q = d.take searchLimit ∧
    (filteredParks (some d) q).length = min searchLimit d.length ∧
    (∀ q2, filteredParks none q2 = []) ∧
    topParks none = [] := by
  have hq : normQuery q = [] := by
    unfold normQuery
    rw [trimStr_eq_nil q hw]
    rfl
  have h1 : filteredParks (some d) q = d.take searchLimit := by
    simp [filteredParks, hq]
  refine ⟨h1, ?_, fun _ => rfl, rfl⟩
  rw [h1]
  exact List.length_take searchLimit d

/-- C8 witness: a one-space query over a two-record dataset returns both
records in order. -/
theorem claim_C8_trivial_query_witness :
    filteredParks (some [parkA, parkP]) [' '] = [parkA, parkP] := by
  have h := (claim_C8_trivial_query [parkA, parkP] [' '] (by decide)).1
  rw [h]
  decide

/-- C9: `highlightedPark` is total and in-bounds: for any `highlightIndex`
(negative or past the end) it returns the filtered record at the index
clamped into `[0, |filteredParks| − 1]` when the filtered list is non-empty
(so it is always `some` then), and `none` when the list is empty. -/
theorem claim_C9_highlighted_total (pd : Option (List ParkItem)) (q : Str) (hi : Int) :
    (filteredParks pd q = [] → highlightedPark pd q hi = none) ∧
    (filteredParks pd q ≠ [] →
      (min (max hi 0) (((filteredParks pd q).length : Int) - 1)).toNat <
          (filteredParks pd q).length ∧
      highlightedPark pd q hi =
        (filteredParks pd q)[(min (max hi 0)
          (((filteredParks pd q).length : Int) - 1)).toNat]? ∧
      (highlightedPark pd q hi).isSome = true) := by
  constructor
  · intro hnil
    simp [highlightedPark, hnil]
  · intro hne
    have hlen : 0 < (filteredParks pd q).length := List.length_pos.mpr hne
    have hfp : (filteredParks pd q).isEmpty = false := by
      rcases hh : (filteredParks pd q).isEmpty with _ | _
      · rfl
      · exact absurd (List.isEmpty_iff.mp hh) hne
    have hidx : (min (max hi 0) (((filteredParks pd q).length : Int) - 1)).toNat <
        (filteredParks pd q).length := by
      omega
    refine ⟨hidx, ?_, ?_⟩
    · simp [highlightedPark, hfp]
    · simp [highlightedPark, hfp, List.getElem?_eq_getElem hidx]

/-- C9 witness: clamping from below on a singleton list, and the null branch. -/
theorem claim_C9_highlighted_total_witness :
    highlightedPark (some [parkA]) [] (-5) = some parkA ∧
    highlightedPark none [] 3 = none := by
  constructor
  · have h := (claim_C9_highlighted_total (some [parkA]) [] (-5)).2 (by decide)
    rw [h.2.1]
    decide
  · exact (claim_C9_highlighted_total none [] 3).1 (by decide)

/-- C10: evaluating `topParks` sorts a spread-created copy in place and
never writes the array `parkData` references: the dataset's contents are
unchanged by an evaluation, the result is the pure `topParks` of those
contents, and `filteredParks` over the dataset is unaffected. -/
theorem claim_C10_no_mutation (h : Heap) (r : Nat) (q : Str) (hr : r < h.length) :
    heapGet (evalTopParks h (some r)).2 r = heapGet h r ∧
    (evalTopParks h (some r)).1 = topParks (some (heapGet h r)) ∧
    filteredParks (some (heapGet (evalTopParks h (some r)).2 r)) q =
      filteredParks (some (heapGet h r)) q ∧
    (evalTopParks h none).2 = h := by
  have hcopy : heapGet (h ++ [heapGet h r]) h.length = heapGet h r := by
    simp [heapGet, List.getElem?_concat_length]
  have hne : h.length ≠ r := by omega
  have hframe : heapGet (evalTopParks h (some r)).2 r = heapGet h r := by
    show heapGet ((h ++ [heapGet h r]).set h.length
      (sortByCountDesc (heapGet (h ++ [heapGet h r]) h.length))) r = heapGet h r
    simp [heapGet, List.getElem?_set_ne hne, List.getElem?_append_left hr]
  refine ⟨hframe, ?_, by rw [hframe], rfl⟩
  show (heapGet ((h ++ [heapGet h r]).set h.length
    (sortByCountDesc (heapGet (h ++ [heapGet h r]) h.length))) h.length).take 10 = _
  rw [hcopy]
  have hset : heapGet ((h ++ [heapGet h r]).set h.length
      (sortByCountDesc (heapGet h r))) h.length = sortByCountDesc (heapGet h r) := by
    simp [heapGet]
  rw [hset]
  rfl

/-- C10 witness: evaluation over a two-record heap cell leaves it intact. -/
theorem claim_C10_no_mutation_witness :
    heapGet (evalTopParks [[parkA, parkP]] (some 0)).2 0 = [parkA, parkP] ∧
    (evalTopParks [[parkA, parkP]] (some 0)).1 = [parkP, parkA] := by
  have h := claim_C10_no_mutation [[parkA, parkP]] 0 [] (by decide)
  exact ⟨h.1.trans (by decide), h.2.1.trans (by decide)⟩

end BenchMap
